import Mathlib

/-!
Verification of the SongKeyFinder key-estimation pipeline (src/app.py).

The source is a small Flask application whose analysis core is the function
`detect_key` together with the module-level constant tables and the top-notes
report assembled in `upload`.  The floating-point values of the source are
embedded as exact rationals; the Pearson correlation coefficients computed by
`np.corrcoef` at lines 60-61 enter the selection loop only through comparisons,
so the selection logic is embedded as a function of the 24 correlation scores
(one per tonic and mode), exactly as the loop at lines 52-74 consumes them.
-/

namespace SongKeyFinder

/-- The two key modes appearing in `detect_key` (strings "major" / "minor" in
the source, lines 69 and 74). -/
inductive Mode
  | major
  | minor
deriving DecidableEq, Fintype, Repr

/-- Rendering of a mode as the lowercase string used in key labels. -/
def modeString : Mode → String
  | Mode.major => "major"
  | Mode.minor => "minor"

/-- The note-name table `notes` (line 27). -/
def notes : List String :=
  ["C", "C#", "D", "D#", "E", "F"] ++ ["F#", "G", "G#", "A", "A#", "B"]

/-- The note names after the final `.lower()` applied when composing the key
label at line 76 (`notes[i]` passed through `str.lower`). -/
def notesLower : List String :=
  ["c", "c#", "d", "d#", "e", "f", "f#", "g", "g#", "a", "a#", "b"]

/-- Krumhansl-Schmuckler major profile `major_profile` (line 24), with the
float literals embedded as exact rationals. -/
def major_profile : List ℚ :=
  [635/100, 223/100, 348/100, 233/100, 438/100, 409/100,
   252/100, 519/100, 239/100, 366/100, 229/100, 288/100]

/-- Krumhansl-Schmuckler minor profile `minor_profile` (line 25). -/
def minor_profile : List ℚ :=
  [633/100, 268/100, 352/100, 538/100, 260/100, 353/100,
   254/100, 475/100, 398/100, 269/100, 334/100, 317/100]

/-- The Camelot table `camelot_map` (lines 8-21), as an association list in
source order. -/
def camelot_map : List (String × String) :=
  [("c major", "8B"), ("a minor", "8A"),
   ("g major", "9B"), ("e minor", "9A"),
   ("d major", "10B"), ("b minor", "10A"),
   ("a major", "11B"), ("f# minor", "11A"),
   ("e major", "12B"), ("c# minor", "12A"),
   ("b major", "1B"), ("g# minor", "1A"),
   ("f# major", "2B"), ("d# minor", "2A"),
   ("c# major", "3B"), ("a# minor", "3A"),
   ("g# major", "4B"), ("f minor", "4A"),
   ("d# major", "5B"), ("c minor", "5A"),
   ("a# major", "6B"), ("g minor", "6A"),
   ("f major", "7B"), ("d minor", "7A")]

/-- The lookup `camelot_map.get(final_key, "N/A")` (line 113): the value of the
first matching key, or the sentinel "N/A" when no key matches. -/
def camelotGet (label : String) : String :=
  ((camelot_map.find? (fun e => e.1 == label)).map Prod.snd).getD "N/A"

/-- The rotation `np.roll(profile, i)` (lines 57-58).  `np.roll` moves the
element at index `j` to index `(j + i) mod len`, which is exactly
`List.rotateRight`. -/
def roll (xs : List ℚ) (i : ℕ) : List ℚ :=
  xs.rotateRight i

/-- The chroma normalization `chroma_mean = chroma_mean / np.sum(chroma_mean)`
(line 49).  When the sum is zero numpy performs `0/0` on every bin and yields a
vector of NaN values, i.e. no well-defined rational result; this undefined
outcome is modelled as `none`.  No guard exists in the source. -/
def normalizeChroma (m : List ℚ) : Option (List ℚ) :=
  if m.sum = 0 then none else some (m.map (fun x => x / m.sum))

/-- The comparison score of one candidate given the raw correlation scores `s`:
the loop adds the fixed bias `0.02` to every major score before comparing
(line 64), minor scores are compared raw (line 71). -/
def biasedScore (s : Fin 12 → Mode → ℚ) : Fin 12 × Mode → ℚ :=
  fun c => match c.2 with
    | Mode.major => s c.1 Mode.major + 1/50
    | Mode.minor => s c.1 Mode.minor

/-- The 24 candidates in the exact order the loop at lines 56-74 examines them:
tonics ascending from C (`for i in range(12)`), and at each tonic the major
candidate (lines 66-69) before the minor candidate (lines 71-74). -/
def candOrder : List (Fin 12 × Mode) :=
  (List.finRange 12).flatMap (fun i => [(i, Mode.major), (i, Mode.minor)])

/-- One iteration of the selection loop (lines 56-74): compute the biased major
score and the raw minor score for tonic `i`, then run the two strict `>`
comparisons against the running best, major first. -/
def loopStep (s : Fin 12 → Mode → ℚ) (st : ℚ × Option (Fin 12 × Mode)) (i : Fin 12) :
    ℚ × Option (Fin 12 × Mode) :=
  let major_score : ℚ := s i Mode.major + 1/50
  let minor_score : ℚ := s i Mode.minor
  let st1 := if major_score > st.1 then (major_score, some (i, Mode.major)) else st
  if minor_score > st1.1 then (minor_score, some (i, Mode.minor)) else st1

/-- The full selection loop (lines 52-74): fold `loopStep` over the 12 tonics
starting from `best_score = -999`, `best_key = best_mode = None`.  The result
is the final `(best_score, best candidate)` pair; `none` corresponds to the
initial `best_key = None` never being overwritten. -/
def detectLoop (s : Fin 12 → Mode → ℚ) : ℚ × Option (Fin 12 × Mode) :=
  (List.finRange 12).foldl (loopStep s) (-999, none)

/-- The single-candidate form of the update in the loop body: one strict `>`
comparison of a biased score against the running best. -/
def selStep (f : Fin 12 × Mode → ℚ) (st : ℚ × Option (Fin 12 × Mode)) (a : Fin 12 × Mode) :
    ℚ × Option (Fin 12 × Mode) :=
  if f a > st.1 then (f a, some a) else st

/-- Running the selection over an explicit candidate list. -/
def runSel (f : Fin 12 × Mode → ℚ) (st : ℚ × Option (Fin 12 × Mode))
    (L : List (Fin 12 × Mode)) : ℚ × Option (Fin 12 × Mode) :=
  L.foldl (selStep f) st

/-- The label composed at line 76: the lowercased note name of the best tonic
followed by the mode.  When the loop never updated (`best_key = None`) the
Python f-string renders the value None, giving the string "none none". -/
def rawLabel : Option (Fin 12 × Mode) → String
  | none => "none none"
  | some (i, m) => notesLower.getD i.val "" ++ " " ++ modeString m

/-- FIX 1 (lines 81-87): if the label is "d major" and the C bin exceeds 1.4
times the C# bin, reassign to "g major". -/
def fix1 (chroma : Fin 12 → ℚ) (label : String) : String :=
  if label = "d major" then
    if chroma 0 > chroma 1 * (14/10) then "g major" else label
  else label

/-- FIX 2 (lines 92-99): if the label is "g# major" and both the C bin exceeds
0.07 and the D# bin exceeds 0.05, reassign to "c minor". -/
def fix2 (chroma : Fin 12 → ℚ) (label : String) : String :=
  if label = "g# major" then
    if chroma 0 > 7/100 ∧ chroma 3 > 5/100 then "c minor" else label
  else label

/-- FIX 3 (lines 104-110): if the label is "d# major" and both the C bin
exceeds 0.08 and the D# bin exceeds 0.06, reassign to "c minor". -/
def fix3 (chroma : Fin 12 → ℚ) (label : String) : String :=
  if label = "d# major" then
    if chroma 0 > 8/100 ∧ chroma 3 > 6/100 then "c minor" else label
  else label

/-- The three heuristic corrections applied in source order (lines 78-110). -/
def corrections (chroma : Fin 12 → ℚ) (label : String) : String :=
  fix3 chroma (fix2 chroma (fix1 chroma label))

/-- The estimator result assembled after the loop (lines 76-118): the corrected
lowercase key label, its Camelot code, and the stored best score.  (Line 116
additionally title-cases the label for display; the score and the Camelot code
are taken from the values shown here.) -/
def detectResult (chroma : Fin 12 → ℚ) (s : Fin 12 → Mode → ℚ) : String × String × ℚ :=
  let st := detectLoop s
  let final_key := corrections chroma (rawLabel st.2)
  (final_key, camelotGet final_key, st.1)

/-- The `(note, value)` pairs built in `upload` (line 142):
`[(notes[i], chroma[i]) for i in range(12)]`. -/
def notePairs (chroma : List ℚ) : List (String × ℚ) :=
  (List.range 12).map (fun i => (notes.getD i "", chroma.getD i 0))

/-- The stable descending sort of the note pairs (lines 141-145):
`sorted(..., key=lambda x: x[1], reverse=True)`.  Python sorting is stable and
`reverse=True` reverses the comparison while keeping equal keys in input
order, which is exactly a stable sort under the relation `second component
greater or equal`; `List.insertionSort` is such a stable sort. -/
def rankedNotes (chroma : List ℚ) : List (String × ℚ) :=
  (notePairs chroma).insertionSort (fun a b => b.2 ≤ a.2)

/-- The top-5 slice `[:5]` of the ranked notes (line 145). -/
def top_notes (chroma : List ℚ) : List (String × ℚ) :=
  (rankedNotes chroma).take 5

/-- Candidate position in iteration order: tonic index doubled, minor after
major. -/
def candPos : Fin 12 × Mode → ℕ :=
  fun c => 2 * c.1.val + (match c.2 with | Mode.major => 0 | Mode.minor => 1)

/-- Concrete score assignment used to witness C5. -/
def sC5 : Fin 12 → Mode → ℚ :=
  fun i m => if i.val = 3 ∧ m = Mode.minor then 3/4 else 0

/-- Concrete score assignment refuting C2 as stated: the minor candidate sits
at tonic 0, the major candidate at tonic 1, their raw scores differ by exactly
0.02 with the major one lower, and every other candidate is strictly below. -/
def sC2 : Fin 12 → Mode → ℚ :=
  fun i m =>
    if i.val = 0 ∧ m = Mode.minor then 1/2
    else if i.val = 1 ∧ m = Mode.major then 12/25
    else -1/2

/-- Concrete score assignment witnessing the amended C2 at tonic `i = j = 0`. -/
def sC2W : Fin 12 → Mode → ℚ :=
  fun i m =>
    if i.val = 0 ∧ m = Mode.major then 49/100
    else if i.val = 0 ∧ m = Mode.minor then 51/100
    else -1/2

/-- Concrete score assignment with a major winner, exhibiting the bias stored
in the returned score. -/
def sC3 : Fin 12 → Mode → ℚ :=
  fun i m => if i.val = 0 ∧ m = Mode.major then 1/2 else -1/2

/-- Concrete chroma vector taking the C = 0.10, C# = 0.05 branch of C6. -/
def cC6 : Fin 12 → ℚ :=
  fun i => if i.val = 0 then 1/10 else if i.val = 1 then 1/20 else 0

/-- The concrete chroma vector of the top-5 ranking test case. -/
def chromaC9 : List ℚ :=
  [3/10, 1/20, 1/5, 1/20, 3/20, 1/20, 1/20, 1/10, 1/50, 1/100, 1/100, 1/100]

/-- Concrete chroma vector used to witness C10. -/
def cC10 : Fin 12 → ℚ := fun _ => 0

/-- Concrete score assignment used to witness C10. -/
def sC10 : Fin 12 → Mode → ℚ := fun _ _ => 0

@[simp] theorem major_ne_minor : Mode.major ≠ Mode.minor := by
  intro h
  cases h

@[simp] theorem minor_ne_major : Mode.minor ≠ Mode.major := by
  intro h
  cases h

theorem candOrder_pairwise : candOrder.Pairwise (fun a b => candPos a < candPos b) := by
  decide

theorem mem_candOrder : ∀ c : Fin 12 × Mode, c ∈ candOrder := by
  decide

theorem candOrder_explicit : candOrder =
    [(0, Mode.major), (0, Mode.minor), (1, Mode.major), (1, Mode.minor),
     (2, Mode.major), (2, Mode.minor), (3, Mode.major), (3, Mode.minor),
     (4, Mode.major), (4, Mode.minor), (5, Mode.major), (5, Mode.minor),
     (6, Mode.major), (6, Mode.minor), (7, Mode.major), (7, Mode.minor),
     (8, Mode.major), (8, Mode.minor), (9, Mode.major), (9, Mode.minor),
     (10, Mode.major), (10, Mode.minor), (11, Mode.major), (11, Mode.minor)] := by
  decide

theorem foldl_loopStep_eq_runSel (s : Fin 12 → Mode → ℚ) :
    ∀ (L : List (Fin 12)) (st : ℚ × Option (Fin 12 × Mode)),
      L.foldl (loopStep s) st =
        runSel (biasedScore s) st (L.flatMap (fun i => [(i, Mode.major), (i, Mode.minor)]))
  | [], _ => rfl
  | i :: L, st => by
    rw [List.flatMap_cons, List.foldl_cons]
    have h2 : runSel (biasedScore s) st ([(i, Mode.major), (i, Mode.minor)] ++
        L.flatMap (fun i => [(i, Mode.major), (i, Mode.minor)])) =
        runSel (biasedScore s) (selStep (biasedScore s) (selStep (biasedScore s) st
          (i, Mode.major)) (i, Mode.minor))
          (L.flatMap (fun i => [(i, Mode.major), (i, Mode.minor)])) := by
      simp [runSel]
    rw [h2]
    have h3 : selStep (biasedScore s) (selStep (biasedScore s) st (i, Mode.major))
        (i, Mode.minor) = loopStep s st i := rfl
    rw [h3]
    exact foldl_loopStep_eq_runSel s L (loopStep s st i)

theorem detectLoop_eq_runSel (s : Fin 12 → Mode → ℚ) :
    detectLoop s = runSel (biasedScore s) (-999, none) candOrder :=
  foldl_loopStep_eq_runSel s (List.finRange 12) (-999, none)

theorem runSel_of_forall_le (f : Fin 12 × Mode → ℚ) :
    ∀ (L : List (Fin 12 × Mode)) (st : ℚ × Option (Fin 12 × Mode)),
      (∀ a ∈ L, f a ≤ st.1) → runSel f st L = st
  | [], _, _ => rfl
  | a :: L, st, h => by
    rw [runSel, List.foldl_cons]
    have hs : selStep f st a = st := by
      rw [selStep, if_neg]
      exact not_lt.mpr (h a (List.mem_cons_self a L))
    rw [hs]
    exact runSel_of_forall_le f L st (fun b hb => h b (List.mem_cons_of_mem a hb))

theorem runSel_first_max (f : Fin 12 × Mode → ℚ) :
    ∀ (L : List (Fin 12 × Mode)) (st : ℚ × Option (Fin 12 × Mode)),
      (∃ a ∈ L, st.1 < f a) →
      ∃ pre x post, L = pre ++ x :: post ∧
        (∀ a ∈ pre, f a < f x) ∧ (∀ a ∈ post, f a ≤ f x) ∧ st.1 < f x ∧
        runSel f st L = (f x, some x)
  | [], _, hex => absurd hex (by simp)
  | a :: L, st, hex => by
    rw [runSel, List.foldl_cons]
    by_cases ha : st.1 < f a
    · have hstep : selStep f st a = (f a, some a) := by
        rw [selStep, if_pos ha]
      rw [hstep]
      by_cases hL : ∃ b ∈ L, f a < f b
      · obtain ⟨pre, x, post, hdec, hpre, hpost, hlt, hrun⟩ :=
          runSel_first_max f L (f a, some a) (by simpa using hL)
        refine ⟨a :: pre, x, post, by rw [hdec, List.cons_append], ?_, hpost, lt_trans ha hlt, hrun⟩
        intro b hb
        rcases List.mem_cons.mp hb with hb | hb
        · exact hb ▸ hlt
        · exact hpre b hb
      · push_neg at hL
        refine ⟨[], a, L, rfl, by simp, hL, ha, ?_⟩
        exact runSel_of_forall_le f L (f a, some a) hL
    · have hstep : selStep f st a = st := by
        rw [selStep, if_neg ha]
      rw [hstep]
      have hex2 : ∃ b ∈ L, st.1 < f b := by
        rcases hex with ⟨b, hb, hfb⟩
        rcases List.mem_cons.mp hb with hb | hb
        · exact absurd (hb ▸ hfb) ha
        · exact ⟨b, hb, hfb⟩
      obtain ⟨pre, x, post, hdec, hpre, hpost, hlt, hrun⟩ := runSel_first_max f L st hex2
      refine ⟨a :: pre, x, post, by rw [hdec, List.cons_append], ?_, hpost, hlt, hrun⟩
      intro b hb
      rcases List.mem_cons.mp hb with hb | hb
      · exact hb ▸ lt_of_le_of_lt (not_lt.mp ha) hlt
      · exact hpre b hb

theorem detectLoop_first_max (s : Fin 12 → Mode → ℚ) (h : ∀ i m, -1 ≤ s i m) :
    ∃ pre x post, candOrder = pre ++ x :: post ∧
      (∀ c ∈ pre, biasedScore s c < biasedScore s x) ∧
      (∀ c ∈ post, biasedScore s c ≤ biasedScore s x) ∧
      detectLoop s = (biasedScore s x, some x) := by
  have hex : ∃ a ∈ candOrder, ((-999 : ℚ), (none : Option (Fin 12 × Mode))).1 < biasedScore s a := by
    refine ⟨(0, Mode.major), mem_candOrder _, ?_⟩
    have h1 : (-1 : ℚ) ≤ s 0 Mode.major := h 0 Mode.major
    have h2 : biasedScore s (0, Mode.major) = s 0 Mode.major + 1/50 := rfl
    rw [h2]
    linarith
  obtain ⟨pre, x, post, hdec, hpre, hpost, _, hrun⟩ :=
    runSel_first_max (biasedScore s) candOrder (-999, none) hex
  exact ⟨pre, x, post, hdec, hpre, hpost, (detectLoop_eq_runSel s).trans hrun⟩

theorem candOrder_decomp_post {pre post : List (Fin 12 × Mode)} {x : Fin 12 × Mode}
    (hdec : candOrder = pre ++ x :: post) :
    ∀ c ∈ post, candPos x < candPos c := by
  have hp : (pre ++ x :: post).Pairwise (fun a b => candPos a < candPos b) := by
    rw [← hdec]
    exact candOrder_pairwise
  have hx : (x :: post).Pairwise (fun a b => candPos a < candPos b) :=
    (List.pairwise_append.mp hp).2.1
  exact (List.pairwise_cons.mp hx).1

theorem sum_map_div (l : List ℚ) (s : ℚ) : (l.map (fun x => x / s)).sum = l.sum / s := by
  induction l with
  | nil => simp
  | cons a l ih => simp [ih, add_div]

/-- C1: the chroma extraction has no guard for zero total energy: on an
all-zero averaged chroma vector the normalization at line 49 divides by zero
(numpy yields NaN bins, neither a zero vector nor an explicit error, modelled
as `none`); for every input with nonzero total energy the normalized
12-element chroma vector sums to exactly 1. -/
theorem C1_chroma_normalization :
    normalizeChroma (List.replicate 12 0) = none ∧
    ∀ m : List ℚ, m.sum ≠ 0 → ∃ v, normalizeChroma m = some v ∧ v.sum = 1 := by
  constructor
  · rw [normalizeChroma, if_pos]
    simp
  · intro m hm
    refine ⟨m.map (fun x => x / m.sum), ?_, ?_⟩
    · rw [normalizeChroma, if_neg hm]
    · rw [sum_map_div, div_self hm]

theorem C1_chroma_normalization_witness :
    ((List.replicate 12 (1/12 : ℚ)).sum ≠ 0) ∧
    (∃ v, normalizeChroma (List.replicate 12 (1/12 : ℚ)) = some v ∧ v.sum = 1) := by
  have hs : (List.replicate 12 (1/12 : ℚ)).sum ≠ 0 := by
    norm_num [List.sum_replicate]
  exact ⟨hs, C1_chroma_normalization.2 _ hs⟩

/-- C4: for every tonic index `i` and bin `k`, the rotated major and minor
templates built by `np.roll(profile, i)` at lines 57-58 satisfy
`rotated[k] = base[(k - i) mod 12]`. -/
theorem C4_rotated_templates :
    ∀ i k : Fin 12,
      (roll major_profile i.val).getD k.val 0 =
        major_profile.getD ((((k.val : ℤ) - (i.val : ℤ)) % 12).toNat) 0 ∧
      (roll minor_profile i.val).getD k.val 0 =
        minor_profile.getD ((((k.val : ℤ) - (i.val : ℤ)) % 12).toNat) 0 := by
  intro i k
  fin_cases i <;> fin_cases k <;> exact ⟨rfl, rfl⟩

/-- C5: the selection loop examines the 24 candidates in the fixed order
tonics ascending from C with major before minor at each tonic, and, because
both comparisons are strict `>`, the winner is the first candidate in that
order attaining the maximal biased score: every earlier candidate scores
strictly lower and every later candidate scores no higher. -/
theorem C5_first_encountered_max (s : Fin 12 → Mode → ℚ) (h : ∀ i m, -1 ≤ s i m) :
    candOrder =
      [(0, Mode.major), (0, Mode.minor), (1, Mode.major), (1, Mode.minor),
       (2, Mode.major), (2, Mode.minor), (3, Mode.major), (3, Mode.minor),
       (4, Mode.major), (4, Mode.minor), (5, Mode.major), (5, Mode.minor),
       (6, Mode.major), (6, Mode.minor), (7, Mode.major), (7, Mode.minor),
       (8, Mode.major), (8, Mode.minor), (9, Mode.major), (9, Mode.minor),
       (10, Mode.major), (10, Mode.minor), (11, Mode.major), (11, Mode.minor)] ∧
    ∃ pre x post, candOrder = pre ++ x :: post ∧
      detectLoop s = (biasedScore s x, some x) ∧
      (∀ c ∈ pre, biasedScore s c < biasedScore s x) ∧
      (∀ c ∈ post, biasedScore s c ≤ biasedScore s x) := by
  refine ⟨candOrder_explicit, ?_⟩
  obtain ⟨pre, x, post, hdec, hpre, hpost, hrun⟩ := detectLoop_first_max s h
  exact ⟨pre, x, post, hdec, hrun, hpre, hpost⟩

theorem C5_first_encountered_max_witness :
    (∀ i m, -1 ≤ sC5 i m) ∧
    (candOrder =
      [(0, Mode.major), (0, Mode.minor), (1, Mode.major), (1, Mode.minor),
       (2, Mode.major), (2, Mode.minor), (3, Mode.major), (3, Mode.minor),
       (4, Mode.major), (4, Mode.minor), (5, Mode.major), (5, Mode.minor),
       (6, Mode.major), (6, Mode.minor), (7, Mode.major), (7, Mode.minor),
       (8, Mode.major), (8, Mode.minor), (9, Mode.major), (9, Mode.minor),
       (10, Mode.major), (10, Mode.minor), (11, Mode.major), (11, Mode.minor)] ∧
    ∃ pre x post, candOrder = pre ++ x :: post ∧
      detectLoop sC5 = (biasedScore sC5 x, some x) ∧
      (∀ c ∈ pre, biasedScore sC5 c < biasedScore sC5 x) ∧
      (∀ c ∈ post, biasedScore sC5 c ≤ biasedScore sC5 x)) := by
  have h : ∀ i m, -1 ≤ sC5 i m := by
    intro i m
    rw [sC5]
    split <;> norm_num
  exact ⟨h, C5_first_encountered_max sC5 h⟩

/-- C2 (amended): if the raw correlation scores of a major candidate at tonic
`i` and a minor candidate at tonic `j` differ by exactly 0.02 with the major
one lower, every other candidate scores strictly below the major candidate,
and the major candidate is encountered no later than the minor one (`i ≤ j`),
then the loop picks the major candidate.  (When the minor candidate comes
first in iteration order the strict `>` comparison keeps it instead; see the
counterexample.) -/
theorem C2_major_bias_boundary (s : Fin 12 → Mode → ℚ) (i j : Fin 12)
    (hrange : -1 ≤ s i Mode.major)
    (hgap : s i Mode.major + 1/50 = s j Mode.minor)
    (horder : i ≤ j)
    (hothers : ∀ c ∈ candOrder, c ≠ (i, Mode.major) → c ≠ (j, Mode.minor) →
      s c.1 c.2 < s i Mode.major) :
    (detectLoop s).2 = some (i, Mode.major) := by
  have hBmaj : biasedScore s (i, Mode.major) = s i Mode.major + 1/50 := rfl
  have hBmin : biasedScore s (j, Mode.minor) = s j Mode.minor := rfl
  have hothersB : ∀ c ∈ candOrder, c ≠ (i, Mode.major) → c ≠ (j, Mode.minor) →
      biasedScore s c < biasedScore s (i, Mode.major) := by
    intro c hc h1 h2
    have hr := hothers c hc h1 h2
    obtain ⟨ci, cm⟩ := c
    rw [hBmaj]
    cases cm
    · show s ci Mode.major + 1/50 < s i Mode.major + 1/50
      have : s ci Mode.major < s i Mode.major := hr
      linarith
    · show s ci Mode.minor < s i Mode.major + 1/50
      have : s ci Mode.minor < s i Mode.major := hr
      linarith
  have hex : ∃ a ∈ candOrder,
      ((-999 : ℚ), (none : Option (Fin 12 × Mode))).1 < biasedScore s a := by
    refine ⟨(i, Mode.major), mem_candOrder _, ?_⟩
    rw [hBmaj]
    show (-999 : ℚ) < s i Mode.major + 1/50
    linarith
  obtain ⟨pre, x, post, hdec, hpre, hpost, hlt, hrun⟩ :=
    runSel_first_max (biasedScore s) candOrder (-999, none) hex
  have hmem : (i, Mode.major) ∈ pre ++ x :: post := hdec ▸ mem_candOrder _
  have hxeq : x = (i, Mode.major) := by
    by_cases hx1 : x = (i, Mode.major)
    · exact hx1
    by_cases hx2 : x = (j, Mode.minor)
    · have hfx : biasedScore s x = biasedScore s (i, Mode.major) := by
        rw [hx2, hBmin, hBmaj]
        exact hgap.symm
      rcases List.mem_append.mp hmem with hp | hp
      · have := hpre _ hp
        rw [hfx] at this
        exact absurd this (lt_irrefl _)
      · rcases List.mem_cons.mp hp with hp | hp
        · exact absurd hp.symm hx1
        · have hpos := candOrder_decomp_post hdec _ hp
          rw [hx2] at hpos
          have hj : 2 * j.val + 1 < 2 * i.val := hpos
          have hij : i.val ≤ j.val := horder
          omega
    · have hxmem : x ∈ candOrder := by
        rw [hdec]
        exact List.mem_append.mpr (Or.inr (List.mem_cons_self _ _))
      have hfx := hothersB x hxmem hx1 hx2
      rcases List.mem_append.mp hmem with hp | hp
      · have := hpre _ hp
        linarith
      · rcases List.mem_cons.mp hp with hp | hp
        · exact absurd hp.symm hx1
        · have := hpost _ hp
          linarith
  rw [detectLoop_eq_runSel, hrun, hxeq]

/-- C2 counterexample: with the exact 0.02 gap and all other candidates
strictly lower, the loop keeps the minor candidate encountered first in
iteration order, not the major candidate, so the claim as stated is false. -/
theorem C2_counterexample :
    sC2 1 Mode.major + 1/50 = sC2 0 Mode.minor ∧
    (∀ c ∈ candOrder, c ≠ ((1 : Fin 12), Mode.major) → c ≠ ((0 : Fin 12), Mode.minor) →
      sC2 c.1 c.2 < sC2 1 Mode.major) ∧
    (detectLoop sC2).2 = some ((0 : Fin 12), Mode.minor) ∧
    (detectLoop sC2).2 ≠ some ((1 : Fin 12), Mode.major) := by
  have heval : detectLoop sC2 = (1/2, some ((0 : Fin 12), Mode.minor)) := by
    norm_num [detectLoop, loopStep, sC2, List.finRange, List.ofFn, Fin.foldr, Fin.foldr.loop]
  refine ⟨by norm_num [sC2], ?_, by rw [heval], by rw [heval]; decide⟩
  intro c hc h1 h2
  rw [candOrder_explicit] at hc
  fin_cases hc <;>
    first
      | exact absurd rfl h1
      | exact absurd rfl h2
      | norm_num [sC2, Fin.coe_ofNat_eq_mod]

theorem C2_major_bias_boundary_witness :
    ((-1 : ℚ) ≤ sC2W 0 Mode.major) ∧
    (sC2W 0 Mode.major + 1/50 = sC2W 0 Mode.minor) ∧
    (∀ c ∈ candOrder, c ≠ ((0 : Fin 12), Mode.major) → c ≠ ((0 : Fin 12), Mode.minor) →
      sC2W c.1 c.2 < sC2W 0 Mode.major) ∧
    (detectLoop sC2W).2 = some ((0 : Fin 12), Mode.major) := by
  have h1 : (-1 : ℚ) ≤ sC2W 0 Mode.major := by
    norm_num [sC2W]
  have h2 : sC2W 0 Mode.major + 1/50 = sC2W 0 Mode.minor := by
    norm_num [sC2W]
  have h4 : ∀ c ∈ candOrder, c ≠ ((0 : Fin 12), Mode.major) → c ≠ ((0 : Fin 12), Mode.minor) →
      sC2W c.1 c.2 < sC2W 0 Mode.major := by
    intro c hc ha hb
    rw [candOrder_explicit] at hc
    fin_cases hc <;>
      first
        | exact absurd rfl ha
        | exact absurd rfl hb
        | norm_num [sC2W, Fin.coe_ofNat_eq_mod]
  exact ⟨h1, h2, h4, C2_major_bias_boundary sC2W 0 0 h1 h2 (le_refl _) h4⟩

/-- C3 (amended): the score stored by the loop and returned in the result is
the biased comparison score of the winning candidate: the raw correlation plus
0.02 when the winner is major (the `+= 0.02` at line 64 happens before the
assignment `best_score = major_score` at line 67), and the raw correlation
when the winner is minor. -/
theorem C3_returned_score (s : Fin 12 → Mode → ℚ) (h : ∀ i m, -1 ≤ s i m) (i : Fin 12) :
    ((detectLoop s).2 = some (i, Mode.major) → (detectLoop s).1 = s i Mode.major + 1/50) ∧
    ((detectLoop s).2 = some (i, Mode.minor) → (detectLoop s).1 = s i Mode.minor) := by
  obtain ⟨pre, x, post, hdec, hpre, hpost, hrun⟩ := detectLoop_first_max s h
  constructor
  · intro h2
    rw [hrun] at h2
    have hx : x = (i, Mode.major) := Option.some.inj h2
    rw [hrun, hx]
    rfl
  · intro h2
    rw [hrun] at h2
    have hx : x = (i, Mode.minor) := Option.some.inj h2
    rw [hrun, hx]
    rfl

/-- C3 counterexample: for a winning major candidate the stored score is the
raw correlation plus the 0.02 bias, not the raw correlation, so the claim as
stated is false. -/
theorem C3_counterexample :
    (detectLoop sC3).2 = some ((0 : Fin 12), Mode.major) ∧
    (detectLoop sC3).1 ≠ sC3 0 Mode.major ∧
    (detectLoop sC3).1 = sC3 0 Mode.major + 1/50 := by
  have heval : detectLoop sC3 = (13/25, some ((0 : Fin 12), Mode.major)) := by
    norm_num [detectLoop, loopStep, sC3, List.finRange, List.ofFn, Fin.foldr, Fin.foldr.loop]
  refine ⟨by rw [heval], ?_, ?_⟩ <;>
    rw [heval] <;>
    norm_num [sC3, Fin.coe_ofNat_eq_mod]

theorem C3_returned_score_witness :
    (∀ i m, -1 ≤ sC3 i m) ∧
    (((detectLoop sC3).2 = some ((0 : Fin 12), Mode.major) →
        (detectLoop sC3).1 = sC3 0 Mode.major + 1/50) ∧
     ((detectLoop sC3).2 = some ((0 : Fin 12), Mode.minor) →
        (detectLoop sC3).1 = sC3 0 Mode.minor)) := by
  have h : ∀ i m, -1 ≤ sC3 i m := by
    intro i m
    rw [sC3]
    split <;> norm_num
  exact ⟨h, C3_returned_score sC3 h 0⟩

theorem fix23_of_ne (c : Fin 12 → ℚ) (l : String) (h2 : l ≠ "g# major") (h3 : l ≠ "d# major") :
    fix3 c (fix2 c l) = l := by
  rw [fix2, if_neg h2, fix3, if_neg h3]

/-- C6: the first heuristic correction rewrites the post-correlation label to
"g major" exactly when that label is "d major" and the C bin exceeds 1.4 times
the C# bin; in particular C = 0.10, C# = 0.05 forces "d major" to "g major"
while C = 0.02, C# = 0.05 leaves "d major" unchanged. -/
theorem C6_dmajor_to_gmajor (c : Fin 12 → ℚ) (label : String) :
    ((corrections c label = "g major" ∧ label ≠ "g major") ↔
      (label = "d major" ∧ c 0 > (14/10) * c 1)) ∧
    (c 0 = 1/10 → c 1 = 1/20 → corrections c "d major" = "g major") ∧
    (c 0 = 1/50 → c 1 = 1/20 → corrections c "d major" = "d major") := by
  have hpos : ∀ d : Fin 12 → ℚ, d 0 > d 1 * (14/10) → corrections d "d major" = "g major" := by
    intro d hcond
    rw [corrections, fix1, if_pos rfl, if_pos hcond]
    exact fix23_of_ne d _ (by decide) (by decide)
  have hneg : ∀ d : Fin 12 → ℚ, ¬ d 0 > d 1 * (14/10) → corrections d "d major" = "d major" := by
    intro d hcond
    rw [corrections, fix1, if_pos rfl, if_neg hcond]
    exact fix23_of_ne d _ (by decide) (by decide)
  refine ⟨?_, ?_, ?_⟩
  · by_cases hd : label = "d major"
    · subst hd
      by_cases hcond : c 0 > c 1 * (14/10)
      · constructor
        · intro _
          refine ⟨rfl, ?_⟩
          linarith
        · intro _
          exact ⟨hpos c hcond, by decide⟩
      · constructor
        · rintro ⟨ha, _⟩
          rw [hneg c hcond] at ha
          exact absurd ha (by decide)
        · rintro ⟨_, hb⟩
          exfalso
          apply hcond
          linarith
    · have hfix1 : fix1 c label = label := by
        rw [fix1, if_neg hd]
      by_cases hg : label = "g# major"
      · subst hg
        rw [corrections, hfix1]
        by_cases hc2 : c 0 > 7/100 ∧ c 3 > 5/100
        · rw [fix2, if_pos rfl, if_pos hc2, fix3, if_neg (by decide)]
          constructor
          · rintro ⟨ha, _⟩
            exact absurd ha (by decide)
          · rintro ⟨ha, _⟩
            exact absurd ha (by decide)
        · rw [fix2, if_pos rfl, if_neg hc2, fix3, if_neg (by decide)]
          constructor
          · rintro ⟨ha, _⟩
            exact absurd ha (by decide)
          · rintro ⟨ha, _⟩
            exact absurd ha (by decide)
      · by_cases hds : label = "d# major"
        · subst hds
          rw [corrections, hfix1, fix2, if_neg (by decide)]
          by_cases hc3 : c 0 > 8/100 ∧ c 3 > 6/100
          · rw [fix3, if_pos rfl, if_pos hc3]
            constructor
            · rintro ⟨ha, _⟩
              exact absurd ha (by decide)
            · rintro ⟨ha, _⟩
              exact absurd ha (by decide)
          · rw [fix3, if_pos rfl, if_neg hc3]
            constructor
            · rintro ⟨ha, _⟩
              exact absurd ha (by decide)
            · rintro ⟨ha, _⟩
              exact absurd ha (by decide)
        · have hres : corrections c label = label := by
            rw [corrections, hfix1]
            exact fix23_of_ne c label hg hds
          constructor
          · rintro ⟨ha, hb⟩
            rw [hres] at ha
            exact absurd ha hb
          · rintro ⟨ha, _⟩
            exact absurd ha hd
  · intro h0 h1
    apply hpos
    rw [h0, h1]
    norm_num
  · intro h0 h1
    apply hneg
    rw [h0, h1]
    norm_num

theorem C6_dmajor_to_gmajor_witness :
    (cC6 0 = 1/10 ∧ cC6 1 = 1/20) ∧ corrections cC6 "d major" = "g major" := by
  have h0 : cC6 0 = 1/10 := by
    norm_num [cC6, Fin.coe_ofNat_eq_mod]
  have h1 : cC6 1 = 1/20 := by
    norm_num [cC6, Fin.coe_ofNat_eq_mod]
  exact ⟨⟨h0, h1⟩, (C6_dmajor_to_gmajor cC6 "d major").2.1 h0 h1⟩

/-- C7: the heuristic corrections rewrite only the key label: the score
component of the assembled result equals the best score stored by the loop,
for every chroma vector, so it is the same whether or not any correction
fires. -/
theorem C7_corrections_only_label (c c2 : Fin 12 → ℚ) (s : Fin 12 → Mode → ℚ) :
    (detectResult c s).2.2 = (detectLoop s).1 ∧
    (detectResult c s).2.2 = (detectResult c2 s).2.2 := by
  constructor
  · rw [detectResult]
  · rw [detectResult, detectResult]

/-- C8: the Camelot lookup is total: every one of the 24 canonical labels in
the table maps to its documented code, and every string outside the table maps
to the sentinel "N/A" (never an error). -/
theorem C8_camelot_total :
    (∀ e ∈ camelot_map, camelotGet e.1 = e.2) ∧
    ∀ lab : String, lab ∉ camelot_map.map Prod.fst → camelotGet lab = "N/A" := by
  constructor
  · decide
  · intro lab h
    have hfind : camelot_map.find? (fun e => e.1 == lab) = none := by
      rw [List.find?_eq_none]
      intro e he hbeq
      have heq : e.1 = lab := by
        simpa using hbeq
      exact h (heq ▸ List.mem_map_of_mem Prod.fst he)
    rw [camelotGet, hfind]
    rfl

theorem C8_camelot_total_witness :
    ("h major" ∉ camelot_map.map Prod.fst) ∧ camelotGet "h major" = "N/A" :=
  ⟨by decide, C8_camelot_total.2 "h major" (by decide)⟩

theorem top_notes_chromaC9_eval :
    top_notes chromaC9 =
      [("C", 3/10), ("D", 1/5), ("E", 3/20), ("G", 1/10), ("C#", 1/20)] := by
  norm_num [top_notes, rankedNotes, notePairs, chromaC9, notes,
    List.insertionSort, List.orderedInsert, List.range, List.range.loop]

/-- C9 counterexample: the claim (and the spec example) say the top-5 list for
this chroma ends with F, but the stable descending sort breaks the 0.05 tie by
original pitch-class index, so C# (index 1) precedes D#, F and F#, and the
actual fifth entry is C#. -/
theorem C9_counterexample :
    (top_notes chromaC9).map Prod.fst = ["C", "D", "E", "G", "C#"] ∧
    (top_notes chromaC9).map Prod.fst ≠ ["C", "D", "E", "G", "F"] := by
  rw [top_notes_chromaC9_eval]
  exact ⟨rfl, by decide⟩

theorem pair_sublist_range {a b n : ℕ} (hab : a < b) (hbn : b < n) :
    List.Sublist [a, b] (List.range n) := by
  induction n with
  | zero => omega
  | succ n ih =>
    rw [List.range_succ]
    by_cases hb : b < n
    · exact (ih hb).trans (List.sublist_append_left _ _)
    · have hbn2 : b = n := by omega
      subst hbn2
      exact List.Sublist.append (List.singleton_sublist.mpr (List.mem_range.mpr hab))
        (List.Sublist.refl _)

/-- C9 (amended): the top-5 report lists the 5 pitch classes with the highest
chroma values in descending order (every kept entry dominates every dropped
entry), with ties broken by original pitch-class index ascending (the stable
sort keeps equal-valued pairs in input order), each percentage being the bin
value times 100; for the chroma of the test case the output is exactly
C, D, E, G, C# (not F: C# at index 1 precedes F at index 5 in the 0.05 tie). -/
theorem C9_top5_ranking :
    (∀ chroma : List ℚ, (top_notes chroma).Pairwise (fun a b => b.2 ≤ a.2)) ∧
    (∀ chroma : List ℚ, ∀ a ∈ top_notes chroma, ∀ b ∈ (rankedNotes chroma).drop 5,
      b.2 ≤ a.2) ∧
    (∀ chroma : List ℚ, ∀ i j : Fin 12, i < j → chroma.getD i.val 0 = chroma.getD j.val 0 →
      List.Sublist
        [(notes.getD i.val "", chroma.getD i.val 0), (notes.getD j.val "", chroma.getD j.val 0)]
        (rankedNotes chroma)) ∧
    top_notes chromaC9 = [("C", 3/10), ("D", 1/5), ("E", 3/20), ("G", 1/10), ("C#", 1/20)] ∧
    (top_notes chromaC9).map (fun p => p.2 * 100) = [30, 20, 15, 10, 5] := by
  have hpair : ∀ chroma : List ℚ,
      (rankedNotes chroma).Pairwise (fun a b : String × ℚ => b.2 ≤ a.2) := by
    intro chroma
    have htot : IsTotal (String × ℚ) (fun a b => b.2 ≤ a.2) := ⟨fun a b => le_total b.2 a.2⟩
    have htrans : IsTrans (String × ℚ) (fun a b => b.2 ≤ a.2) :=
      ⟨fun _ _ _ hab hbc => le_trans hbc hab⟩
    exact List.sorted_insertionSort (fun a b => b.2 ≤ a.2) (notePairs chroma)
  refine ⟨?_, ?_, ?_, top_notes_chromaC9_eval, ?_⟩
  · intro chroma
    exact List.Pairwise.sublist (List.take_sublist 5 _) (hpair chroma)
  · intro chroma
    have hp := hpair chroma
    rw [← List.take_append_drop 5 (rankedNotes chroma)] at hp
    exact (List.pairwise_append.mp hp).2.2
  · intro chroma i j hij heq
    have hsub : List.Sublist [i.val, j.val] (List.range 12) := pair_sublist_range hij j.isLt
    have hmap := hsub.map (fun k => (notes.getD k "", chroma.getD k 0))
    have hr : chroma.getD j.val 0 ≤ chroma.getD i.val 0 := le_of_eq heq.symm
    exact List.pair_sublist_insertionSort hr hmap
  · rw [top_notes_chromaC9_eval]
    norm_num

theorem C9_top5_ranking_witness :
    ((1 : Fin 12) < 3 ∧ chromaC9.getD (1 : Fin 12).val 0 = chromaC9.getD (3 : Fin 12).val 0) ∧
    List.Sublist
      [(notes.getD (1 : Fin 12).val "", chromaC9.getD (1 : Fin 12).val 0),
       (notes.getD (3 : Fin 12).val "", chromaC9.getD (3 : Fin 12).val 0)]
      (rankedNotes chromaC9) := by
  have h1 : (1 : Fin 12) < 3 := by decide
  have h2 : chromaC9.getD (1 : Fin 12).val 0 = chromaC9.getD (3 : Fin 12).val 0 := by
    norm_num [chromaC9, Fin.coe_ofNat_eq_mod]
  exact ⟨⟨h1, h2⟩, C9_top5_ranking.2.2.1 chromaC9 1 3 h1 h2⟩

theorem corrections_cases (c : Fin 12 → ℚ) (l : String) :
    corrections c l = l ∨ corrections c l = "g major" ∨ corrections c l = "c minor" := by
  rw [corrections, fix1, fix2, fix3]
  split_ifs <;> simp

theorem rawLabel_mem : ∀ x : Fin 12 × Mode, rawLabel (some x) ∈ camelot_map.map Prod.fst := by
  decide

theorem corrections_mem (c : Fin 12 → ℚ) (l : String) (h : l ∈ camelot_map.map Prod.fst) :
    corrections c l ∈ camelot_map.map Prod.fst := by
  rcases corrections_cases c l with h1 | h1 | h1 <;> rw [h1]
  · exact h
  · decide
  · decide

theorem camelot_keys_ne_NA : ∀ l ∈ camelot_map.map Prod.fst, camelotGet l ≠ "N/A" := by
  decide

/-- C10: whenever the 24 correlation scores lie in the Pearson range (at least
-1, so the loop always selects a candidate), the final label after the three
corrections is one of the 24 canonical lowercase labels of the Camelot table,
and the lookup therefore never returns the "N/A" sentinel. -/
theorem C10_label_always_mapped (c : Fin 12 → ℚ) (s : Fin 12 → Mode → ℚ)
    (h : ∀ i m, -1 ≤ s i m) :
    corrections c (rawLabel (detectLoop s).2) ∈ camelot_map.map Prod.fst ∧
    camelotGet (corrections c (rawLabel (detectLoop s).2)) ≠ "N/A" := by
  obtain ⟨pre, x, post, hdec, hpre, hpost, hrun⟩ := detectLoop_first_max s h
  have h2 : (detectLoop s).2 = some x := by
    rw [hrun]
  rw [h2]
  have hmem := corrections_mem c _ (rawLabel_mem x)
  exact ⟨hmem, camelot_keys_ne_NA _ hmem⟩

theorem C10_label_always_mapped_witness :
    (∀ i m, -1 ≤ sC10 i m) ∧
    (corrections cC10 (rawLabel (detectLoop sC10).2) ∈ camelot_map.map Prod.fst ∧
     camelotGet (corrections cC10 (rawLabel (detectLoop sC10).2)) ≠ "N/A") := by
  have h : ∀ i m, -1 ≤ sC10 i m := by
    intro i m
    norm_num [sC10]
  exact ⟨h, C10_label_always_mapped cC10 sC10 h⟩

end SongKeyFinder
